import Mathlib

/-!
Verification of the ELLSOLVEC driver (`main.cpp` and `tools.h`) for the
axisymmetric elliptic solver. Machine doubles are embedded as exact
rationals (`ℚ`), C ints as `ℤ` or `ℕ`; the driver's control flow is
embedded as an event-trace function. The stencil generator
(`flat_laplacian.h`) is not part of the sources; the axis-parity rule it
must implement is modelled from the specification text and verified as a
self-contained development.
-/

namespace EllSolve

/-! ## Solver ranges (`main.cpp`, `#define` block, lines 12-19) -/

def NRINTERIOR_MIN : ℤ := 32
def NRINTERIOR_MAX : ℤ := 2048
def NZINTERIOR_MIN : ℤ := 32
def NZINTERIOR_MAX : ℤ := 2048
def DR_MAX : ℚ := 1
def DR_MIN : ℚ := 976562 / 1000000000
def DZ_MAX : ℚ := 1
def DZ_MIN : ℚ := 976562 / 1000000000

/-- Parsed command-line arguments (after `atoi`/`atof`). -/
structure Args where
  norder : ℤ
  NrInterior : ℤ
  NzInterior : ℤ
  dr : ℚ
  dz : ℚ
deriving DecidableEq, Repr

/-- Default parameter values (`main.cpp` lines 24-28). -/
def defaultArgs : Args :=
  { norder := 2, NrInterior := 256, NzInterior := 64, dr := 1/32, dz := 1/8 }

/-- Which configuration check fired (one per `exit(1)` site in the
argument-validation block of `main.cpp`). -/
inductive ConfigError
  | badOrder
  | badNr
  | badNz
  | badDr
  | badDz
deriving DecidableEq, Repr

/-- Argument validation, transcribed check-for-check from `main.cpp`
lines 72-105.  Note line 82 of the source: the second disjunct of the
`NrInterior` range check compares `NzInterior` (not `NrInterior`)
against `NRINTERIOR_MAX`; the transcription preserves this. -/
def validateArgs (a : Args) : Except ConfigError Args :=
  if a.norder ≠ 2 ∧ a.norder ≠ 4 then .error .badOrder
  else if a.NrInterior < NRINTERIOR_MIN ∨ a.NzInterior > NRINTERIOR_MAX then .error .badNr
  else if a.NzInterior < NZINTERIOR_MIN ∨ a.NzInterior > NZINTERIOR_MAX then .error .badNz
  else if a.dr < DR_MIN ∨ a.dr > DR_MAX then .error .badDr
  else if a.dz < DZ_MIN ∨ a.dz > DZ_MAX then .error .badDz
  else .ok a

instance : DecidableEq (Except ConfigError Args) := fun x y =>
  match x, y with
  | .error e, .error f => decidable_of_iff (e = f) (by simp)
  | .error _, .ok _ => isFalse (by simp)
  | .ok _, .error _ => isFalse (by simp)
  | .ok a, .ok b => decidable_of_iff (a = b) (by simp)

/-! ## Grid dimensions (`main.cpp` lines 153-165) -/

/-- Ghost-zone width from the finite-difference order (`main.cpp` lines
154-161; `ghost` is initialised to 0 and only set for orders 2 and 4). -/
def ghostOf (norder : ℤ) : ℤ :=
  if norder = 2 then 2 else if norder = 4 then 3 else 0

/-- Grid dimensions computed by the driver. -/
structure GridDims where
  ghost : ℤ
  NrTotal : ℤ
  NzTotal : ℤ
  DIM : ℤ
deriving DecidableEq, Repr

/-- Dimension computation, transcribed from `main.cpp` lines 153-165. -/
def computeDims (norder NrInterior NzInterior : ℤ) : GridDims :=
  let ghost := ghostOf norder
  let NrTotal := ghost + NrInterior + 1
  let NzTotal := ghost + NzInterior + 1
  { ghost := ghost, NrTotal := NrTotal, NzTotal := NzTotal, DIM := NrTotal * NzTotal }

/-! ## Claims C1-C3 -/

/-- The default arguments pass validation. -/
theorem validateArgs_defaultArgs : validateArgs defaultArgs = .ok defaultArgs := by
  norm_num [validateArgs, defaultArgs, NRINTERIOR_MIN, NRINTERIOR_MAX, NZINTERIOR_MIN,
    NZINTERIOR_MAX, DR_MIN, DR_MAX, DZ_MIN, DZ_MAX]

/-- Arguments exhibiting the `NrInterior` upper-bound slip:
`NrInterior = 4096` is outside `[32, 2048]` but all other fields are
in range. -/
def c1Args : Args :=
  { norder := 2, NrInterior := 4096, NzInterior := 64, dr := 1/32, dz := 1/8 }

/-- C1: the claim says any `NrInterior` outside `[32, 2048]` is rejected
with a nonzero exit, but `main.cpp` line 82 tests `NzInterior` against
the `NrInterior` maximum, so `NrInterior = 4096` passes validation and
reaches the solve phase: the check's own error message names
`NrInterior` and its range, so the condition is a slip and the code
contradicts the claim. -/
theorem c1_nrinterior_range_check_bug :
    (c1Args.NrInterior < NRINTERIOR_MIN ∨ c1Args.NrInterior > NRINTERIOR_MAX) ∧
      validateArgs c1Args = .ok c1Args :=
  ⟨Or.inr (by decide), by
    norm_num [validateArgs, c1Args, NRINTERIOR_MIN, NRINTERIOR_MAX, NZINTERIOR_MIN,
      NZINTERIOR_MAX, DR_MIN, DR_MAX, DZ_MIN, DZ_MAX]⟩

/-- C2: for every accepted configuration, `NrTotal = ghost + NrInterior + 1`,
`NzTotal = ghost + NzInterior + 1` and `DIM = NrTotal * NzTotal`. -/
theorem c2_total_dims (a : Args) (_h : validateArgs a = .ok a) :
    (computeDims a.norder a.NrInterior a.NzInterior).NrTotal =
        (computeDims a.norder a.NrInterior a.NzInterior).ghost + a.NrInterior + 1 ∧
    (computeDims a.norder a.NrInterior a.NzInterior).NzTotal =
        (computeDims a.norder a.NrInterior a.NzInterior).ghost + a.NzInterior + 1 ∧
    (computeDims a.norder a.NrInterior a.NzInterior).DIM =
        (computeDims a.norder a.NrInterior a.NzInterior).NrTotal *
          (computeDims a.norder a.NrInterior a.NzInterior).NzTotal := by
  exact ⟨rfl, rfl, rfl⟩

/-- Witness for C2 at the default configuration. -/
theorem c2_total_dims_witness :
    validateArgs defaultArgs = .ok defaultArgs ∧
      ((computeDims defaultArgs.norder defaultArgs.NrInterior defaultArgs.NzInterior).NrTotal =
          (computeDims defaultArgs.norder defaultArgs.NrInterior defaultArgs.NzInterior).ghost +
            defaultArgs.NrInterior + 1 ∧
        (computeDims defaultArgs.norder defaultArgs.NrInterior defaultArgs.NzInterior).NzTotal =
          (computeDims defaultArgs.norder defaultArgs.NrInterior defaultArgs.NzInterior).ghost +
            defaultArgs.NzInterior + 1 ∧
        (computeDims defaultArgs.norder defaultArgs.NrInterior defaultArgs.NzInterior).DIM =
          (computeDims defaultArgs.norder defaultArgs.NrInterior defaultArgs.NzInterior).NrTotal *
            (computeDims defaultArgs.norder defaultArgs.NrInterior
              defaultArgs.NzInterior).NzTotal) :=
  ⟨validateArgs_defaultArgs, c2_total_dims defaultArgs validateArgs_defaultArgs⟩

/-- C3: the ghost-zone width depends only on the finite-difference order:
2 for second order, 3 for fourth order. -/
theorem c3_ghost_width : ghostOf 2 = 2 ∧ ghostOf 4 = 3 := by
  decide

/-! ## Grid fill (`tools.h` line 16 and `main.cpp` lines 176-215) -/

/-- Row-major linear index, `tools.h` line 16: `IDX(i, j) = i * NzTotal + j`. -/
def IDX (NzTotal i j : ℕ) : ℕ := i * NzTotal + j

/-- The six per-point field arrays allocated by the driver
(`main.cpp` line 177), embedded as total maps from linear index. -/
structure Fields where
  r : ℕ → ℚ
  z : ℕ → ℚ
  u : ℕ → ℚ
  f : ℕ → ℚ
  res : ℕ → ℚ
  s : ℕ → ℚ

/-- The six values a `Fields` state holds at linear index `k`, in the
order `(r, z, u, f, res, s)`. -/
def Fields.cell (F : Fields) (k : ℕ) : ℚ × ℚ × ℚ × ℚ × ℚ × ℚ :=
  (F.r k, F.z k, F.u k, F.f k, F.res k, F.s k)

/-- Radial coordinate of row `i` (`main.cpp` line 201):
`aux_r = ((double)(i - ghost) + 0.5) * dr`. -/
def rCoord (ghost : ℕ) (dr : ℚ) (i : ℕ) : ℚ := ((i : ℚ) - (ghost : ℚ) + 1/2) * dr

/-- Axial coordinate of column `j` (`main.cpp` line 204). -/
def zCoord (ghost : ℕ) (dz : ℚ) (j : ℕ) : ℚ := ((j : ℚ) - (ghost : ℚ) + 1/2) * dz

/-- Manufactured linear source (`main.cpp` line 212), with the libm
exponential abstracted as a parameter `expf`. -/
def sourceVal (expf : ℚ → ℚ) (ar az : ℚ) : ℚ :=
  expf (-ar * ar - az * az) * (1/2 + ar * ar * (-3 + ar * ar + az * az))

/-- The six values the loop body stores at point `(i, j)`. -/
def cellVal (expf : ℚ → ℚ) (ghost : ℕ) (dr dz : ℚ) (i j : ℕ) :
    ℚ × ℚ × ℚ × ℚ × ℚ × ℚ :=
  (rCoord ghost dr i, zCoord ghost dz j, 1, 0, 0,
    sourceVal expf (rCoord ghost dr i) (zCoord ghost dz j))

/-- Body of the fill loop (`main.cpp` lines 201-212) at point `(i, j)`:
six writes at the single linear index `IDX(i, j)`. -/
def fillPoint (expf : ℚ → ℚ) (NzTotal ghost : ℕ) (dr dz : ℚ) (F : Fields)
    (i j : ℕ) : Fields :=
  let aux_r := rCoord ghost dr i
  let aux_z := zCoord ghost dz j
  let k := IDX NzTotal i j
  { r := Function.update F.r k aux_r
    z := Function.update F.z k aux_z
    u := Function.update F.u k 1
    f := Function.update F.f k 0
    res := Function.update F.res k 0
    s := Function.update F.s k (sourceVal expf aux_r aux_z) }

/-- Inner loop over `j = 0 .. n-1` at fixed row `i` (`main.cpp` line 202;
the driver runs it with `n = NzTotal`). -/
def fillRow (expf : ℚ → ℚ) (NzTotal ghost : ℕ) (dr dz : ℚ) (i n : ℕ)
    (F : Fields) : Fields :=
  (List.range n).foldl (fun G j => fillPoint expf NzTotal ghost dr dz G i j) F

/-- Outer loop over `i = 0 .. m-1` (`main.cpp` line 199; the driver runs
it with `m = NrTotal` and inner bound `NzTotal`). -/
def fillRows (expf : ℚ → ℚ) (NzTotal ghost : ℕ) (dr dz : ℚ) (m : ℕ)
    (F : Fields) : Fields :=
  (List.range m).foldl (fun G i => fillRow expf NzTotal ghost dr dz i NzTotal G) F

/-- The complete grid-fill loop nest of `main.cpp` lines 196-215. -/
def fillGrid (expf : ℚ → ℚ) (NrTotal NzTotal ghost : ℕ) (dr dz : ℚ)
    (F : Fields) : Fields :=
  fillRows expf NzTotal ghost dr dz NrTotal F

/-- All-zero initial field state, used to instantiate witnesses. -/
def F0 : Fields :=
  { r := fun _ => 0, z := fun _ => 0, u := fun _ => 0, f := fun _ => 0,
    res := fun _ => 0, s := fun _ => 0 }

theorem fillPoint_cell (expf : ℚ → ℚ) (NzTotal ghost : ℕ) (dr dz : ℚ)
    (F : Fields) (i j k : ℕ) :
    (fillPoint expf NzTotal ghost dr dz F i j).cell k =
      if k = IDX NzTotal i j then cellVal expf ghost dr dz i j else F.cell k := by
  by_cases h : k = IDX NzTotal i j <;>
    simp [fillPoint, Fields.cell, cellVal, Function.update_apply, h]

theorem fillRow_succ (expf : ℚ → ℚ) (NzTotal ghost : ℕ) (dr dz : ℚ)
    (i n : ℕ) (F : Fields) :
    fillRow expf NzTotal ghost dr dz i (n + 1) F =
      fillPoint expf NzTotal ghost dr dz (fillRow expf NzTotal ghost dr dz i n F) i n := by
  simp [fillRow, List.range_succ]

theorem fillRows_succ (expf : ℚ → ℚ) (NzTotal ghost : ℕ) (dr dz : ℚ)
    (m : ℕ) (F : Fields) :
    fillRows expf NzTotal ghost dr dz (m + 1) F =
      fillRow expf NzTotal ghost dr dz m NzTotal
        (fillRows expf NzTotal ghost dr dz m F) := by
  simp [fillRows, List.range_succ]

/-- Indices in distinct rows are distinct (the key row-major ordering
fact): a point of an earlier row has a strictly smaller linear index
than any point of a later row. -/
theorem IDX_row_lt {NzTotal i j m : ℕ} (hi : i < m) (hj : j < NzTotal)
    (j2 : ℕ) : IDX NzTotal i j < IDX NzTotal m j2 := by
  unfold IDX
  calc i * NzTotal + j < i * NzTotal + NzTotal := by omega
    _ = (i + 1) * NzTotal := by ring
    _ ≤ m * NzTotal := Nat.mul_le_mul_right _ (by omega)
    _ ≤ m * NzTotal + j2 := Nat.le_add_right _ _

theorem fillRow_frame (expf : ℚ → ℚ) (NzTotal ghost : ℕ) (dr dz : ℚ)
    (i n : ℕ) (F : Fields) (k : ℕ) (h : ∀ j < n, k ≠ IDX NzTotal i j) :
    (fillRow expf NzTotal ghost dr dz i n F).cell k = F.cell k := by
  induction n with
  | zero => simp [fillRow]
  | succ n ih =>
    rw [fillRow_succ, fillPoint_cell, if_neg (h n (by omega))]
    exact ih (fun j hj => h j (by omega))

theorem fillRow_hit (expf : ℚ → ℚ) (NzTotal ghost : ℕ) (dr dz : ℚ)
    (i n : ℕ) (F : Fields) (j : ℕ) (hj : j < n) :
    (fillRow expf NzTotal ghost dr dz i n F).cell (IDX NzTotal i j) =
      cellVal expf ghost dr dz i j := by
  induction n with
  | zero => omega
  | succ n ih =>
    rw [fillRow_succ, fillPoint_cell]
    by_cases h : j = n
    · subst h; rw [if_pos rfl]
    · rw [if_neg (fun heq => h (by simp only [IDX] at heq; omega))]
      exact ih (by omega)

theorem fillRows_frame (expf : ℚ → ℚ) (NzTotal ghost : ℕ) (dr dz : ℚ)
    (m : ℕ) (F : Fields) (k : ℕ)
    (h : ∀ i < m, ∀ j < NzTotal, k ≠ IDX NzTotal i j) :
    (fillRows expf NzTotal ghost dr dz m F).cell k = F.cell k := by
  induction m with
  | zero => simp [fillRows]
  | succ m ih =>
    rw [fillRows_succ,
      fillRow_frame _ _ _ _ _ _ _ _ _ (fun j hj => h m (by omega) j hj)]
    exact ih (fun i hi j hj => h i (by omega) j hj)

theorem fillRows_hit (expf : ℚ → ℚ) (NzTotal ghost : ℕ) (dr dz : ℚ)
    (m : ℕ) (F : Fields) (i j : ℕ) (hi : i < m) (hj : j < NzTotal) :
    (fillRows expf NzTotal ghost dr dz m F).cell (IDX NzTotal i j) =
      cellVal expf ghost dr dz i j := by
  induction m with
  | zero => omega
  | succ m ih =>
    rw [fillRows_succ]
    by_cases h : i = m
    · subst h; exact fillRow_hit expf NzTotal ghost dr dz i NzTotal _ j hj
    · rw [fillRow_frame _ _ _ _ _ _ _ _ _
        (fun j2 hj2 => Nat.ne_of_lt (IDX_row_lt (by omega) hj j2))]
      exact ih (by omega)

theorem fillGrid_hit (expf : ℚ → ℚ) (NrTotal NzTotal ghost : ℕ) (dr dz : ℚ)
    (F : Fields) (i j : ℕ) (hi : i < NrTotal) (hj : j < NzTotal) :
    (fillGrid expf NrTotal NzTotal ghost dr dz F).cell (IDX NzTotal i j) =
      cellVal expf ghost dr dz i j :=
  fillRows_hit expf NzTotal ghost dr dz NrTotal F i j hi hj

theorem fillGrid_frame (expf : ℚ → ℚ) (NrTotal NzTotal ghost : ℕ) (dr dz : ℚ)
    (F : Fields) (k : ℕ) (h : ∀ i < NrTotal, ∀ j < NzTotal, k ≠ IDX NzTotal i j) :
    (fillGrid expf NrTotal NzTotal ghost dr dz F).cell k = F.cell k :=
  fillRows_frame expf NzTotal ghost dr dz NrTotal F k h

theorem Fields.cell_eq {F : Fields} {k : ℕ} {a b c d e v : ℚ}
    (h : F.cell k = (a, b, c, d, e, v)) :
    F.r k = a ∧ F.z k = b ∧ F.u k = c ∧ F.f k = d ∧ F.res k = e ∧ F.s k = v := by
  simpa [Fields.cell, Prod.ext_iff] using h

/-! ## Claims C4-C6 and C10 -/

/-- C4: the grid-fill loop stores `r = (i - ghost + 0.5) * dr` and
`z = (j - ghost + 0.5) * dz` at every point `(i, j)` of the grid, and in
particular the coordinate of point 0 in each axis is
`(0.5 - ghost) * step`. -/
theorem c4_grid_coordinates (expf : ℚ → ℚ) (NrTotal NzTotal ghost : ℕ)
    (dr dz : ℚ) (F : Fields) (i j : ℕ) (hi : i < NrTotal) (hj : j < NzTotal) :
    (fillGrid expf NrTotal NzTotal ghost dr dz F).r (IDX NzTotal i j) =
        ((i : ℚ) - (ghost : ℚ) + 1/2) * dr ∧
    (fillGrid expf NrTotal NzTotal ghost dr dz F).z (IDX NzTotal i j) =
        ((j : ℚ) - (ghost : ℚ) + 1/2) * dz ∧
    (fillGrid expf NrTotal NzTotal ghost dr dz F).r (IDX NzTotal 0 0) =
        (1/2 - (ghost : ℚ)) * dr ∧
    (fillGrid expf NrTotal NzTotal ghost dr dz F).z (IDX NzTotal 0 0) =
        (1/2 - (ghost : ℚ)) * dz := by
  obtain ⟨hr, hz, -, -, -, -⟩ :=
    Fields.cell_eq (fillGrid_hit expf NrTotal NzTotal ghost dr dz F i j hi hj)
  obtain ⟨hr0, hz0, -, -, -, -⟩ :=
    Fields.cell_eq (fillGrid_hit expf NrTotal NzTotal ghost dr dz F 0 0
      (by omega) (by omega))
  refine ⟨by rw [hr]; rfl, by rw [hz]; rfl, ?_, ?_⟩
  · rw [hr0]; unfold rCoord; push_cast; ring
  · rw [hz0]; unfold zCoord; push_cast; ring

/-- Witness for C4 at `NrTotal = NzTotal = 3`, `ghost = 2`,
`dr = dz = 1`, point `(1, 2)`. -/
theorem c4_grid_coordinates_witness :
    (fillGrid (fun q => q) 3 3 2 1 1 F0).r (IDX 3 1 2) = ((1 : ℚ) - (2 : ℚ) + 1/2) * 1 ∧
    (fillGrid (fun q => q) 3 3 2 1 1 F0).z (IDX 3 1 2) = ((2 : ℚ) - (2 : ℚ) + 1/2) * 1 ∧
    (fillGrid (fun q => q) 3 3 2 1 1 F0).r (IDX 3 0 0) = (1/2 - (2 : ℚ)) * 1 ∧
    (fillGrid (fun q => q) 3 3 2 1 1 F0).z (IDX 3 0 0) = (1/2 - (2 : ℚ)) * 1 := by
  have h := c4_grid_coordinates (fun q => q) 3 3 2 1 1 F0 1 2 (by decide) (by decide)
  simpa using h

/-- C5: the flat linear index is the row-major `k = i * NzTotal + j`
of `tools.h`, and the driver's fill loop touches no linear index outside
the image of `IDX` on the grid rectangle — every field write lands at an
`IDX`-index. -/
theorem c5_row_major_index :
    (∀ NzTotal i j : ℕ, IDX NzTotal i j = i * NzTotal + j) ∧
    (∀ (expf : ℚ → ℚ) (NrTotal NzTotal ghost : ℕ) (dr dz : ℚ) (F : Fields)
      (k : ℕ), (∀ i < NrTotal, ∀ j < NzTotal, k ≠ IDX NzTotal i j) →
        (fillGrid expf NrTotal NzTotal ghost dr dz F).cell k = F.cell k) :=
  ⟨fun _ _ _ => rfl,
   fun expf NrTotal NzTotal ghost dr dz F k h =>
     fillGrid_frame expf NrTotal NzTotal ghost dr dz F k h⟩

/-- Witness for C5: the index formula at `(NzTotal, i, j) = (5, 2, 3)`
and frame preservation at the untouched index 7 of a 1-by-1 fill. -/
theorem c5_row_major_index_witness :
    IDX 5 2 3 = 13 ∧ (fillGrid (fun q => q) 1 1 0 1 1 F0).cell 7 = F0.cell 7 :=
  ⟨by rw [c5_row_major_index.1 5 2 3],
   c5_row_major_index.2 (fun q => q) 1 1 0 1 1 F0 7 (by decide)⟩

/-- C6: at every grid point the source field is initialized to
`s = expf(-r² - z²) * (0.5 + r² * (-3 + r² + z²))` where `(r, z)` are
the coordinates the fill loop stored at that point and `expf` is the
libm exponential. -/
theorem c6_source_field (expf : ℚ → ℚ) (NrTotal NzTotal ghost : ℕ)
    (dr dz : ℚ) (F : Fields) (i j : ℕ) (hi : i < NrTotal) (hj : j < NzTotal) :
    (fillGrid expf NrTotal NzTotal ghost dr dz F).s (IDX NzTotal i j) =
      expf (-((fillGrid expf NrTotal NzTotal ghost dr dz F).r (IDX NzTotal i j) *
              (fillGrid expf NrTotal NzTotal ghost dr dz F).r (IDX NzTotal i j)) -
            (fillGrid expf NrTotal NzTotal ghost dr dz F).z (IDX NzTotal i j) *
              (fillGrid expf NrTotal NzTotal ghost dr dz F).z (IDX NzTotal i j)) *
        (1/2 + (fillGrid expf NrTotal NzTotal ghost dr dz F).r (IDX NzTotal i j) *
            (fillGrid expf NrTotal NzTotal ghost dr dz F).r (IDX NzTotal i j) *
          (-3 + (fillGrid expf NrTotal NzTotal ghost dr dz F).r (IDX NzTotal i j) *
              (fillGrid expf NrTotal NzTotal ghost dr dz F).r (IDX NzTotal i j) +
            (fillGrid expf NrTotal NzTotal ghost dr dz F).z (IDX NzTotal i j) *
              (fillGrid expf NrTotal NzTotal ghost dr dz F).z (IDX NzTotal i j))) := by
  obtain ⟨hr, hz, -, -, -, hs⟩ :=
    Fields.cell_eq (fillGrid_hit expf NrTotal NzTotal ghost dr dz F i j hi hj)
  rw [hs, hr, hz]
  unfold sourceVal
  congr 1
  exact congrArg expf (by ring)

/-- Witness for C6 at a 3-by-3 grid, point `(2, 1)`, with the identity
standing in for the exponential. -/
theorem c6_source_field_witness :
    (fillGrid (fun q => q) 3 3 2 1 1 F0).s (IDX 3 2 1) =
      (fun q => q) (-((fillGrid (fun q => q) 3 3 2 1 1 F0).r (IDX 3 2 1) *
              (fillGrid (fun q => q) 3 3 2 1 1 F0).r (IDX 3 2 1)) -
            (fillGrid (fun q => q) 3 3 2 1 1 F0).z (IDX 3 2 1) *
              (fillGrid (fun q => q) 3 3 2 1 1 F0).z (IDX 3 2 1)) *
        (1/2 + (fillGrid (fun q => q) 3 3 2 1 1 F0).r (IDX 3 2 1) *
            (fillGrid (fun q => q) 3 3 2 1 1 F0).r (IDX 3 2 1) *
          (-3 + (fillGrid (fun q => q) 3 3 2 1 1 F0).r (IDX 3 2 1) *
              (fillGrid (fun q => q) 3 3 2 1 1 F0).r (IDX 3 2 1) +
            (fillGrid (fun q => q) 3 3 2 1 1 F0).z (IDX 3 2 1) *
              (fillGrid (fun q => q) 3 3 2 1 1 F0).z (IDX 3 2 1))) :=
  c6_source_field (fun q => q) 3 3 2 1 1 F0 2 1 (by decide) (by decide)

/-- C10: before any solver call, every one of the `DIM = NrTotal * NzTotal`
grid points has its solution field `u` set to 1 and its right-hand-side
field `f` and residual field `res` set to 0 by the fill loop. -/
theorem c10_initial_fields (expf : ℚ → ℚ) (NrTotal NzTotal ghost : ℕ)
    (dr dz : ℚ) (F : Fields) (k : ℕ) (hk : k < NrTotal * NzTotal) :
    (fillGrid expf NrTotal NzTotal ghost dr dz F).u k = 1 ∧
    (fillGrid expf NrTotal NzTotal ghost dr dz F).f k = 0 ∧
    (fillGrid expf NrTotal NzTotal ghost dr dz F).res k = 0 := by
  have hNz : 0 < NzTotal := by
    rcases Nat.eq_zero_or_pos NzTotal with h | h
    · subst h; simp at hk
    · exact h
  have hij : IDX NzTotal (k / NzTotal) (k % NzTotal) = k := by
    unfold IDX; rw [Nat.mul_comm, Nat.div_add_mod]
  have hi : k / NzTotal < NrTotal := Nat.div_lt_of_lt_mul (by rw [Nat.mul_comm] at hk; exact hk)
  have hj : k % NzTotal < NzTotal := Nat.mod_lt _ hNz
  have h := fillGrid_hit expf NrTotal NzTotal ghost dr dz F _ _ hi hj
  rw [hij] at h
  obtain ⟨-, -, hu, hf, hres, -⟩ := Fields.cell_eq h
  exact ⟨hu, hf, hres⟩

/-- Witness for C10 on a 1-by-2 grid at index 1. -/
theorem c10_initial_fields_witness :
    (fillGrid (fun q => q) 1 2 0 1 1 F0).u 1 = 1 ∧
    (fillGrid (fun q => q) 1 2 0 1 1 F0).f 1 = 0 ∧
    (fillGrid (fun q => q) 1 2 0 1 1 F0).res 1 = 0 :=
  c10_initial_fields (fun q => q) 1 2 0 1 1 F0 1 (by decide)

/-! ## Driver control flow (`main.cpp` lines 44-293) as an event trace -/

/-- Observable events of a run of `main`.  A `solve` event records the
last two `flat_laplacian` arguments (permutation mode, refinement
method) and the backend outcome of that call. -/
inductive Event
  | usageWarning
  | userAbort
  | configError (e : ConfigError)
  | mkdirCall
  | overwritePrompt
  | chdirPrompt
  | alloc
  | gridFill
  | solve (perm refinement : ℕ) (ok : Bool)
  | finish
deriving DecidableEq, Repr

/-- Environment and interactive inputs the driver branches on. -/
structure World where
  argc : ℕ
  args : Args
  proceedDefault : Bool
  dirExists : Bool
  proceedOverwrite : Bool
  chdirFails : Bool
  proceedCwd : Bool

/-- Allocation, grid fill and the five benchmark solver calls
(`main.cpp` lines 182-293).  The five calls are straight-line code: the
trace records each backend outcome but the sequence never branches on
one. -/
def solveTail (backend : Fin 5 → Bool) : List Event :=
  [.alloc, .gridFill,
   .solve 0 0 (backend 0), .solve 2 0 (backend 1), .solve 1 0 (backend 2),
   .solve 0 6 (backend 3), .solve 1 6 (backend 4), .finish]

/-- The `chdir` block (`main.cpp` lines 136-151). -/
def chdirPhase (w : World) (rest : List Event) : List Event :=
  if w.chdirFails then
    .chdirPrompt :: (if w.proceedCwd then rest else [.userAbort])
  else rest

/-- The output-directory block (`main.cpp` lines 110-134) followed by
the `chdir` block. -/
def dirPhase (w : World) (rest : List Event) : List Event :=
  if w.dirExists then
    .overwritePrompt :: (if w.proceedOverwrite then chdirPhase w rest else [.userAbort])
  else .mkdirCall :: chdirPhase w rest

/-- Event trace of `main`: the argument phase (interactive fallback when
`argc` is not 7, validation otherwise), then the directory phase, then
allocation, grid fill and the five solver calls. -/
def mainTrace (w : World) (backend : Fin 5 → Bool) : List Event :=
  if w.argc ≠ 7 then
    .usageWarning ::
      (if w.proceedDefault then dirPhase w (solveTail backend) else [.userAbort])
  else
    match validateArgs w.args with
    | .error e => [.configError e]
    | .ok _ => dirPhase w (solveTail backend)

/-- The `(perm, refinement)` arguments of the solver calls of a trace,
in order. -/
def solveCalls : List Event → List (ℕ × ℕ)
  | [] => []
  | .solve p r _ :: t => (p, r) :: solveCalls t
  | _ :: t => solveCalls t

/-! ## Claims C7 and C8 -/

/-- C7: on every execution path whose trace contains a
configuration-error exit, no field memory is allocated. -/
theorem c7_no_alloc_on_config_error (w : World) (backend : Fin 5 → Bool)
    (e : ConfigError) (h : Event.configError e ∈ mainTrace w backend) :
    Event.alloc ∉ mainTrace w backend := by
  unfold mainTrace dirPhase chdirPhase solveTail at h ⊢
  cases hv : validateArgs w.args <;> split_ifs at h ⊢ <;> simp_all

/-- A world whose parsed order is 3: validation fails at the first
check. -/
def badOrderWorld : World :=
  { argc := 7,
    args := { norder := 3, NrInterior := 256, NzInterior := 64, dr := 1/32, dz := 1/8 },
    proceedDefault := true, dirExists := false, proceedOverwrite := true,
    chdirFails := false, proceedCwd := true }

/-- Validation of the `badOrderWorld` arguments fails on the order. -/
theorem validateArgs_badOrder : validateArgs badOrderWorld.args = .error .badOrder := by
  norm_num [validateArgs, badOrderWorld]

/-- Witness for C7: a run with order 3 hits the configuration error and
allocates nothing. -/
theorem c7_no_alloc_on_config_error_witness :
    Event.configError .badOrder ∈ mainTrace badOrderWorld (fun _ => true) ∧
      Event.alloc ∉ mainTrace badOrderWorld (fun _ => true) := by
  have hm : Event.configError .badOrder ∈ mainTrace badOrderWorld (fun _ => true) := by
    unfold mainTrace
    rw [if_neg (by norm_num [badOrderWorld]), validateArgs_badOrder]
    simp
  exact ⟨hm, c7_no_alloc_on_config_error badOrderWorld (fun _ => true) .badOrder hm⟩

/-- C8: every run performs either none (aborted before the solve phase)
or exactly the five benchmark solver calls, in the fixed order
normal, compute-permutation, with-permutation, CGS, CGS-with-permutation;
the sequence is the same whatever each backend call reports (so one
failure never suppresses a later call and nothing is retried), and once
the solve phase is reached all five run. -/
theorem c8_five_solver_calls (w : World) (backend backend2 : Fin 5 → Bool) :
    (solveCalls (mainTrace w backend) = [] ∨
      solveCalls (mainTrace w backend) = [(0, 0), (2, 0), (1, 0), (0, 6), (1, 6)]) ∧
    solveCalls (mainTrace w backend) = solveCalls (mainTrace w backend2) ∧
    (Event.alloc ∈ mainTrace w backend →
      solveCalls (mainTrace w backend) = [(0, 0), (2, 0), (1, 0), (0, 6), (1, 6)]) := by
  unfold mainTrace dirPhase chdirPhase solveTail
  cases hv : validateArgs w.args <;> split_ifs <;> simp [solveCalls]

/-- A world taking the interactive-default path straight to the solve
phase. -/
def goodWorld : World :=
  { argc := 1, args := defaultArgs, proceedDefault := true, dirExists := false,
    proceedOverwrite := true, chdirFails := false, proceedCwd := true }

/-- Witness for C8: a run that reaches the solve phase performs exactly
the five benchmark calls. -/
theorem c8_five_solver_calls_witness :
    Event.alloc ∈ mainTrace goodWorld (fun _ => true) ∧
      solveCalls (mainTrace goodWorld (fun _ => true)) =
        [(0, 0), (2, 0), (1, 0), (0, 6), (1, 6)] := by
  have hm : Event.alloc ∈ mainTrace goodWorld (fun _ => true) := by
    unfold mainTrace dirPhase chdirPhase solveTail
    simp [goodWorld]
  exact ⟨hm, (c8_five_solver_calls goodWorld (fun _ => true) (fun _ => false)).2.2 hm⟩

/-! ## Axis parity rule (modelled from the spec, §4.2 and §8) -/

/-- Modelled from the spec: `flat_laplacian.h` (the stencil coefficient
generator) is not among the sources.  Offsets of the 1D radial stencil:
3-point for second order, 5-point for fourth order (§4.2). -/
def stencilOffsets (norder : ℤ) : List ℤ :=
  if norder = 2 then [-1, 0, 1] else [-2, -1, 0, 1, 2]

/-- Modelled from the spec: how far the stencil reaches from its centre
along one axis (1 for second order, 2 for fourth order). -/
def stencilReach (norder : ℤ) : ℤ := if norder = 2 then 1 else 2

/-- Modelled from the spec: the raw operator row at radial index `i`,
one `(absolute index, coefficient)` pair per stencil offset, with the
per-offset coefficients `c` left abstract. -/
def rawStencilRow (norder : ℤ) (c : ℤ → ℚ) (i : ℤ) : List (ℤ × ℚ) :=
  (stencilOffsets norder).map (fun o => (i + o, c o))

/-- Modelled from the spec: the reflection of radial index `p` across
the symmetry axis `r = 0`, which the cell-centred grid of §4.1 places
halfway between indices `ghost - 1` and `ghost`. -/
def reflectIdx (ghost p : ℤ) : ℤ := 2 * ghost - 1 - p

/-- Total coefficient a row assigns to absolute index `p`. -/
def coeffAt : List (ℤ × ℚ) → ℤ → ℚ
  | [], _ => 0
  | e :: t, p => (if e.1 = p then e.2 else 0) + coeffAt t p

/-- Modelled from the spec: the parity substitution for an even-parity
field — drop every row entry on the ghost side of the axis and add its
coefficient into the interior entry at the reflected index (§4.2, §8). -/
def parityFold (ghost : ℤ) (row : List (ℤ × ℚ)) : List (ℤ × ℚ) :=
  (row.filter (fun e => ghost ≤ e.1)).map
    (fun e => (e.1, e.2 + coeffAt row (reflectIdx ghost e.1)))

/-- Action of a row on a field of nodal values. -/
def applyRow (row : List (ℤ × ℚ)) (v : ℤ → ℚ) : ℚ :=
  (row.map (fun e => e.2 * v e.1)).sum

/-- Physical radial coordinate of (possibly ghost) index `p`. -/
def coordAt (ghost : ℤ) (dr : ℚ) (p : ℤ) : ℚ := ((p : ℚ) - (ghost : ℚ) + 1/2) * dr

theorem ghostOf_two : ghostOf 2 = 2 := by norm_num [ghostOf]

theorem ghostOf_four : ghostOf 4 = 3 := by norm_num [ghostOf]

theorem stencilReach_two : stencilReach 2 = 1 := by norm_num [stencilReach]

theorem stencilReach_four : stencilReach 4 = 2 := by norm_num [stencilReach]

theorem rawStencilRow_two (c : ℤ → ℚ) :
    rawStencilRow 2 c 2 = [(1, c (-1)), (2, c 0), (3, c 1)] := by
  norm_num [rawStencilRow, stencilOffsets]

theorem parityFold_two (c : ℤ → ℚ) :
    parityFold 2 (rawStencilRow 2 c 2) = [(2, c 0 + c (-1)), (3, c 1)] := by
  norm_num [rawStencilRow_two, parityFold, coeffAt, reflectIdx]

theorem rawStencilRow_four_three (c : ℤ → ℚ) :
    rawStencilRow 4 c 3 = [(1, c (-2)), (2, c (-1)), (3, c 0), (4, c 1), (5, c 2)] := by
  norm_num [rawStencilRow, stencilOffsets]

theorem parityFold_four_three (c : ℤ → ℚ) :
    parityFold 3 (rawStencilRow 4 c 3) =
      [(3, c 0 + c (-1)), (4, c 1 + c (-2)), (5, c 2)] := by
  norm_num [rawStencilRow_four_three, parityFold, coeffAt, reflectIdx]

theorem rawStencilRow_four_four (c : ℤ → ℚ) :
    rawStencilRow 4 c 4 = [(2, c (-2)), (3, c (-1)), (4, c 0), (5, c 1), (6, c 2)] := by
  norm_num [rawStencilRow, stencilOffsets]

theorem parityFold_four_four (c : ℤ → ℚ) :
    parityFold 3 (rawStencilRow 4 c 4) =
      [(3, c (-1) + c (-2)), (4, c 0), (5, c 1), (6, c 2)] := by
  norm_num [rawStencilRow_four_four, parityFold, coeffAt, reflectIdx]

/-- A row assigns coefficient 0 to any index none of its entries mention. -/
theorem coeffAt_eq_zero : ∀ (row : List (ℤ × ℚ)) (q : ℤ),
    (∀ e ∈ row, e.1 ≠ q) → coeffAt row q = 0
  | [], _, _ => rfl
  | e :: t, q, h => by
    simp only [coeffAt]
    rw [if_neg (h e (List.mem_cons_self e t)),
      coeffAt_eq_zero t q (fun x hx => h x (List.mem_cons_of_mem e hx))]
    norm_num

/-- C9 (spec-modelled): for both supported orders and every
axis-adjacent radial index, the folded row (a) references no index on
the ghost side of the axis, (b) carries, at the interior index mirroring
each ghost index `p` — the point at the same distance from the axis,
opposite sign of `r` — its own raw coefficient plus the raw coefficient
of `p`, and (c) acts on every even-parity field exactly as the raw row
does. -/
theorem c9_parity_substitution (norder i : ℤ) (horder : norder = 2 ∨ norder = 4)
    (hadj : ghostOf norder ≤ i ∧ i < ghostOf norder + stencilReach norder)
    (c : ℤ → ℚ) (v : ℤ → ℚ) (hv : ∀ p, v (reflectIdx (ghostOf norder) p) = v p)
    (dr : ℚ) :
    (∀ e ∈ parityFold (ghostOf norder) (rawStencilRow norder c i),
        ghostOf norder ≤ e.1) ∧
    (∀ p : ℤ, p < ghostOf norder →
      coordAt (ghostOf norder) dr (reflectIdx (ghostOf norder) p) =
          -(coordAt (ghostOf norder) dr p) ∧
      coeffAt (parityFold (ghostOf norder) (rawStencilRow norder c i))
          (reflectIdx (ghostOf norder) p) =
        coeffAt (rawStencilRow norder c i) (reflectIdx (ghostOf norder) p) +
          coeffAt (rawStencilRow norder c i) p) ∧
    applyRow (parityFold (ghostOf norder) (rawStencilRow norder c i)) v =
      applyRow (rawStencilRow norder c i) v := by
  rcases horder with h2 | h4
  · subst h2
    simp only [ghostOf_two, stencilReach_two] at hadj hv ⊢
    have hi : i = 2 := by omega
    subst hi
    refine ⟨?_, ?_, ?_⟩
    · rw [parityFold_two]
      intro e he
      simp only [List.mem_cons, List.not_mem_nil, or_false] at he
      rcases he with he | he <;> subst he <;> norm_num
    · intro p hp
      refine ⟨by unfold coordAt reflectIdx; push_cast; ring, ?_⟩
      rw [parityFold_two, rawStencilRow_two]
      have hr : reflectIdx 2 p = 3 - p := by unfold reflectIdx; ring
      rw [hr]
      have hcase : p = 1 ∨ p = 0 ∨ p ≤ -1 := by omega
      rcases hcase with rfl | rfl | hle
      · norm_num [coeffAt]
      · norm_num [coeffAt]
      · have z1 : coeffAt [(2, c 0 + c (-1)), (3, c 1)] (3 - p) = 0 :=
          coeffAt_eq_zero _ _ (by
            intro e he
            simp only [List.mem_cons, List.not_mem_nil, or_false] at he
            rcases he with rfl | rfl <;> simp <;> omega)
        have z2 : coeffAt [(1, c (-1)), (2, c 0), (3, c 1)] (3 - p) = 0 :=
          coeffAt_eq_zero _ _ (by
            intro e he
            simp only [List.mem_cons, List.not_mem_nil, or_false] at he
            rcases he with rfl | rfl | rfl <;> simp <;> omega)
        have z3 : coeffAt [(1, c (-1)), (2, c 0), (3, c 1)] p = 0 :=
          coeffAt_eq_zero _ _ (by
            intro e he
            simp only [List.mem_cons, List.not_mem_nil, or_false] at he
            rcases he with rfl | rfl | rfl <;> simp <;> omega)
        rw [z1, z2, z3]
        norm_num
    · have h1 := hv 1
      norm_num [reflectIdx] at h1
      rw [parityFold_two, rawStencilRow_two]
      simp only [applyRow, List.map_cons, List.map_nil, List.sum_cons, List.sum_nil]
      linear_combination c (-1) * h1
  · subst h4
    simp only [ghostOf_four, stencilReach_four] at hadj hv ⊢
    have hi : i = 3 ∨ i = 4 := by omega
    rcases hi with hi | hi <;> subst hi
    · refine ⟨?_, ?_, ?_⟩
      · rw [parityFold_four_three]
        intro e he
        simp only [List.mem_cons, List.not_mem_nil, or_false] at he
        rcases he with he | he | he <;> subst he <;> norm_num
      · intro p hp
        refine ⟨by unfold coordAt reflectIdx; push_cast; ring, ?_⟩
        rw [parityFold_four_three, rawStencilRow_four_three]
        have hr : reflectIdx 3 p = 5 - p := by unfold reflectIdx; ring
        rw [hr]
        have hcase : p = 2 ∨ p = 1 ∨ p = 0 ∨ p ≤ -1 := by omega
        rcases hcase with rfl | rfl | rfl | hle
        · norm_num [coeffAt]
        · norm_num [coeffAt]
        · norm_num [coeffAt]
        · have z1 : coeffAt [(3, c 0 + c (-1)), (4, c 1 + c (-2)), (5, c 2)] (5 - p) = 0 :=
            coeffAt_eq_zero _ _ (by
              intro e he
              simp only [List.mem_cons, List.not_mem_nil, or_false] at he
              rcases he with rfl | rfl | rfl <;> simp <;> omega)
          have z2 : coeffAt [(1, c (-2)), (2, c (-1)), (3, c 0), (4, c 1), (5, c 2)]
              (5 - p) = 0 :=
            coeffAt_eq_zero _ _ (by
              intro e he
              simp only [List.mem_cons, List.not_mem_nil, or_false] at he
              rcases he with rfl | rfl | rfl | rfl | rfl <;> simp <;> omega)
          have z3 : coeffAt [(1, c (-2)), (2, c (-1)), (3, c 0), (4, c 1), (5, c 2)]
              p = 0 :=
            coeffAt_eq_zero _ _ (by
              intro e he
              simp only [List.mem_cons, List.not_mem_nil, or_false] at he
              rcases he with rfl | rfl | rfl | rfl | rfl <;> simp <;> omega)
          rw [z1, z2, z3]
          norm_num
      · have h1 := hv 1
        have h2 := hv 2
        norm_num [reflectIdx] at h1 h2
        rw [parityFold_four_three, rawStencilRow_four_three]
        simp only [applyRow, List.map_cons, List.map_nil, List.sum_cons, List.sum_nil]
        linear_combination c (-2) * h1 + c (-1) * h2
    · refine ⟨?_, ?_, ?_⟩
      · rw [parityFold_four_four]
        intro e he
        simp only [List.mem_cons, List.not_mem_nil, or_false] at he
        rcases he with he | he | he | he <;> subst he <;> norm_num
      · intro p hp
        refine ⟨by unfold coordAt reflectIdx; push_cast; ring, ?_⟩
        rw [parityFold_four_four, rawStencilRow_four_four]
        have hr : reflectIdx 3 p = 5 - p := by unfold reflectIdx; ring
        rw [hr]
        have hcase : p = 2 ∨ p = 1 ∨ p = 0 ∨ p = -1 ∨ p ≤ -2 := by omega
        rcases hcase with rfl | rfl | rfl | rfl | hle
        · norm_num [coeffAt]
        · norm_num [coeffAt]
        · norm_num [coeffAt]
        · norm_num [coeffAt]
        · have z1 : coeffAt [(3, c (-1) + c (-2)), (4, c 0), (5, c 1), (6, c 2)]
              (5 - p) = 0 :=
            coeffAt_eq_zero _ _ (by
              intro e he
              simp only [List.mem_cons, List.not_mem_nil, or_false] at he
              rcases he with rfl | rfl | rfl | rfl <;> simp <;> omega)
          have z2 : coeffAt [(2, c (-2)), (3, c (-1)), (4, c 0), (5, c 1), (6, c 2)]
              (5 - p) = 0 :=
            coeffAt_eq_zero _ _ (by
              intro e he
              simp only [List.mem_cons, List.not_mem_nil, or_false] at he
              rcases he with rfl | rfl | rfl | rfl | rfl <;> simp <;> omega)
          have z3 : coeffAt [(2, c (-2)), (3, c (-1)), (4, c 0), (5, c 1), (6, c 2)]
              p = 0 :=
            coeffAt_eq_zero _ _ (by
              intro e he
              simp only [List.mem_cons, List.not_mem_nil, or_false] at he
              rcases he with rfl | rfl | rfl | rfl | rfl <;> simp <;> omega)
          rw [z1, z2, z3]
          norm_num
      · have h2 := hv 2
        norm_num [reflectIdx] at h2
        rw [parityFold_four_four, rawStencilRow_four_four]
        simp only [applyRow, List.map_cons, List.map_nil, List.sum_cons, List.sum_nil]
        linear_combination c (-2) * h2

/-- A concrete even-parity field across the axis of a ghost-2 grid:
even in the physical coordinate `r = (p - 2 + 1/2)`. -/
def vEven : ℤ → ℚ := fun p => ((2 * p - 3 : ℤ) : ℚ) ^ 2

/-- A concrete coefficient table. -/
def cW : ℤ → ℚ := fun o => (o : ℚ) + 5

theorem vEven_even : ∀ p, vEven (reflectIdx (ghostOf 2) p) = vEven p := by
  intro p
  norm_num [vEven, reflectIdx, ghostOf]
  ring

/-- Witness for C9 at order 2, the axis-adjacent index 2, with concrete
coefficients and a concrete even field. -/
theorem c9_parity_substitution_witness :
    (∀ e ∈ parityFold (ghostOf 2) (rawStencilRow 2 cW 2), ghostOf 2 ≤ e.1) ∧
    (∀ p : ℤ, p < ghostOf 2 →
      coordAt (ghostOf 2) 1 (reflectIdx (ghostOf 2) p) =
          -(coordAt (ghostOf 2) 1 p) ∧
      coeffAt (parityFold (ghostOf 2) (rawStencilRow 2 cW 2))
          (reflectIdx (ghostOf 2) p) =
        coeffAt (rawStencilRow 2 cW 2) (reflectIdx (ghostOf 2) p) +
          coeffAt (rawStencilRow 2 cW 2) p) ∧
    applyRow (parityFold (ghostOf 2) (rawStencilRow 2 cW 2)) vEven =
      applyRow (rawStencilRow 2 cW 2) vEven :=
  c9_parity_substitution 2 2 (Or.inl rfl)
    (by norm_num [ghostOf, stencilReach]) cW vEven vEven_even 1

end EllSolve
